import Mathlib

/-!
Verification of the block-state and world-placement validation engine of the
redstone-designer repository, as a shallow embedding in Lean 4.

Embedded source files:
- src/int_vec3.rs            (IntVec3, its constants and addition)
- src/block/behavior.rs      (StaticStateValue, state_values_for)
- src/block_state/mod.rs     (BlockState: initial_state_for, new, parse,
                              update, active_variant)
- src/timeline/world_state.rs (WorldState: new, insert_block,
                              assert_valid_placement, is_in_bounds,
                              is_position_occupied, is_flat_surface)

Rust HashMap values are embedded as association lists without duplicate
keys; in-place mutation is embedded as explicit state passing (an operation
on `&mut self` returns a pair of its result and the new state); a Rust
panic (index out of bounds in parse, explicit panic in active_variant) is
embedded as `Option.none` / `Except.error`.
-/

/-- Decidable equality for `Except`, so that results of the embedded
fallible operations can be evaluated on concrete inputs. -/
instance {ε α : Type} [DecidableEq ε] [DecidableEq α] : DecidableEq (Except ε α) := fun a b =>
  match a, b with
  | .ok x, .ok y =>
      if h : x = y then .isTrue (by rw [h]) else .isFalse (fun hh => h (by injection hh))
  | .error x, .error y =>
      if h : x = y then .isTrue (by rw [h]) else .isFalse (fun hh => h (by injection hh))
  | .ok _, .error _ => .isFalse (fun hh => Except.noConfusion hh)
  | .error _, .ok _ => .isFalse (fun hh => Except.noConfusion hh)

/-- Embeds `IntVec3` from src/int_vec3.rs: a vector of three `i32`.
The arithmetic used by the embedded code is bare addition, which in the
source never overflows for the coordinates involved; we use `Int`. -/
structure IntVec3 where
  x : Int
  y : Int
  z : Int
deriving DecidableEq, Repr

/-- `IntVec3::ZERO` from src/int_vec3.rs line 11. -/
def IntVec3.ZERO : IntVec3 := ⟨0, 0, 0⟩

/-- `IntVec3::ONE` from src/int_vec3.rs line 12. -/
def IntVec3.ONE : IntVec3 := ⟨1, 1, 1⟩

/-- `IntVec3::NEG_Y` from src/int_vec3.rs line 13, transcribed exactly as
the source defines it: `IntVec3 { x: 0, y: 0, z: 0 }`. Note the y
component is 0, not -1, despite the constant's name. -/
def IntVec3.NEG_Y : IntVec3 := ⟨0, 0, 0⟩

/-- The `Add` impl for `IntVec3` (componentwise). -/
def IntVec3.add (a b : IntVec3) : IntVec3 := ⟨a.x + b.x, a.y + b.y, a.z + b.z⟩

/-- Embeds `minecraft_assets::schemas::blockstates::multipart::StateValue`
restricted to the two constructors the repository uses (`Bool`, `String`);
this matches spec section 3: values are tagged as boolean or string-enum. -/
inductive StateValue where
  | bool : Bool → StateValue
  | str : String → StateValue
deriving DecidableEq, Repr

/-- `StateValue::from(&str)` of the external crate as evidenced by the
repository's own tests (src/block_state/mod.rs, `constructs_non_empty_state`):
the strings true and false become booleans, everything else stays a string. -/
def StateValue.fromStr (s : String) : StateValue :=
  if s = "true" then .bool true
  else if s = "false" then .bool false
  else .str s

/-- Embeds `StaticStateValue` from src/block/behavior.rs. -/
inductive StaticStateValue where
  | B : Bool → StaticStateValue
  | S : String → StaticStateValue
deriving DecidableEq, Repr

/-- The `From<StaticStateValue> for StateValue` impl in src/block/behavior.rs. -/
def StaticStateValue.toStateValue : StaticStateValue → StateValue
  | .B b => .bool b
  | .S s => .str s

/-- The `PartialEq<StateValue> for StaticStateValue` impl in
src/block/behavior.rs lines 23-31. -/
def StaticStateValue.eqStateValue : StaticStateValue → StateValue → Bool
  | .B a, .bool b => a == b
  | .S a, .str b => a == b
  | _, _ => false

/-- Embeds `state_values_for` from src/block/behavior.rs lines 35-54. The
Rust function returns a `HashMap`; we use an association list in source
order. The first value of each list is the default state value. -/
def state_values_for (block_type : String) : List (String × List StaticStateValue) :=
  if block_type = "redstone_wire" then
    [("east", [.S "none", .S "side|up"]),
     ("north", [.S "none", .S "side|up"]),
     ("south", [.S "none", .S "side|up"]),
     ("west", [.S "none", .S "side|up"])]
  else if block_type = "repeater" then
    [("delay", [.S "1", .S "2", .S "3", .S "4"]),
     ("facing", [.S "south", .S "north", .S "east", .S "west"]),
     ("locked", [.B false, .B true]),
     ("powered", [.B false, .B true])]
  else if block_type = "redstone_torch" then
    [("lit", [.B false, .B true])]
  else []

/-- Key lookup in an association list, the embedding of `HashMap::get`. -/
def lookupKey {α : Type} (l : List (String × α)) (key : String) : Option α :=
  match l with
  | [] => none
  | kv :: rest => if kv.1 = key then some kv.2 else lookupKey rest key

/-- Embeds `BlockState` from src/block_state/mod.rs lines 19-22: a block
type plus a map from state property names to current values. -/
structure BlockState where
  block_type : String
  values : List (String × StateValue)
deriving DecidableEq, Repr

/-- Embeds `BlockState::initial_state_for` (src/block_state/mod.rs lines
29-39): for each property in the schema, take the first allowed
value (`value.swap_remove(0)` removes and returns index 0). The schema
lists are non-empty (spec section 3 invariant), so `head?.getD` never
falls back to its default. -/
def BlockState.initial_state_for (block_type : String) : BlockState :=
  { block_type := block_type,
    values := (state_values_for block_type).map
      (fun kv => (kv.1, (kv.2.head?.getD (.B false)).toStateValue)) }

/-- `HashMap` insertion for the embedding of `collect::<HashMap<_,_>>()`:
a later pair with an existing key overwrites the earlier value. -/
def mapInsert (l : List (String × StateValue)) (key : String) (value : StateValue) :
    List (String × StateValue) :=
  match l with
  | [] => [(key, value)]
  | kv :: rest =>
      if kv.1 = key then (key, value) :: rest else kv :: mapInsert rest key value

/-- The embedding of Rust `str::split(sep)`: split a character list on
every occurrence of `sep`; the empty input yields one empty segment, and
empty segments around adjacent separators are kept, exactly as in Rust. -/
def splitOnChar (sep : Char) : List Char → List (List Char)
  | [] => [[]]
  | c :: rest =>
      if c = sep then [] :: splitOnChar sep rest
      else
        match splitOnChar sep rest with
        | g :: gs => (c :: g) :: gs
        | [] => [[c]]

/-- One `filter_map` step of `BlockState::parse` (src/block_state/mod.rs
lines 50-63): an empty segment is skipped (`none` inner option); otherwise
the segment is split on the equals sign and `split[0]`, `split[1]` are
taken. An out-of-bounds `split[1]` is a Rust panic, embedded as the outer
`Option.none`. -/
def parseSegment (seg : List Char) : Option (Option (String × String)) :=
  if seg = [] then some none
  else
    match splitOnChar '=' seg with
    | s0 :: s1 :: _ => some (some (String.mk s0, String.mk s1))
    | _ => none

/-- The fold collecting parsed segments into the values map, left to
right, so that with duplicate keys the later segment wins, as in a Rust
`HashMap` collect. -/
def parseCollect (acc : List (String × StateValue)) (segs : List (List Char)) :
    Option (List (String × StateValue)) :=
  match segs with
  | [] => some acc
  | seg :: rest =>
      match parseSegment seg with
      | none => none
      | some none => parseCollect acc rest
      | some (some kv) => parseCollect (mapInsert acc kv.1 (StateValue.fromStr kv.2)) rest

/-- Embeds `BlockState::parse` (src/block_state/mod.rs lines 50-63):
split the input on commas, skip empty segments, split each remaining
segment on the equals sign, take parts 0 and 1, collect into a map.
`none` embeds the panic on a segment with no equals sign. `parseCollect`
processes segments left to right with later duplicates overwriting
earlier ones, matching `HashMap` collect semantics. -/
def BlockState.parse (input : String) : Option (List (String × StateValue)) :=
  parseCollect [] (splitOnChar ',' input.toList)

/-- Embeds `BlockState::new` (src/block_state/mod.rs lines 42-47). -/
def BlockState.new (block_type : String) (state_values : String) : Option BlockState :=
  match BlockState.parse state_values with
  | none => none
  | some values => some { block_type := block_type, values := values }

/-- Embeds `BlockState::update` (src/block_state/mod.rs lines 94-117).
The Rust method mutates `&mut self` and returns `Result<()>`; we return
the result paired with the new state. The write uses
`entry(prop).and_modify(..)`, which only overwrites an existing key and
never inserts: embedded as a map over the association list replacing the
value at `prop` where present. -/
def BlockState.update (st : BlockState) (prop : String) (value : StateValue) :
    Except String Unit × BlockState :=
  match lookupKey (state_values_for st.block_type) prop with
  | none => (.error "no values for prop", st)
  | some allowed_values =>
      if allowed_values.any (fun av => av.eqStateValue value) then
        let newValues := st.values.map (fun kv => if kv.1 = prop then (kv.1, value) else kv)
        (.ok (), { st with values := newValues })
      else (.error "setting value is not allowed for block type", st)

/-- A multipart rule case from the external rule table: a condition set
(property name to required value) and the variant to apply. The spec
(sections 3 and 4.3) describes this external collaborator as a set of
condition-set-to-variant pairs; the variant identifier is kept abstract
as a string. -/
structure VariantCase where
  conditions : List (String × StateValue)
  apply : String
deriving DecidableEq, Repr

/-- Modelled from the spec: `Case::applies` of the external rule-table
crate, described in spec section 4.3 — a condition set is tested by
structural equality against the supplied properties, and a condition
naming a property absent from the values never matches. -/
def caseApplies (st : BlockState) (c : VariantCase) : Bool :=
  c.conditions.all (fun kv => lookupKey st.values kv.1 == some kv.2)

/-- Embeds `BlockState::active_variant` (src/block_state/mod.rs lines
65-91): filter the cases that apply to this state; panic (embedded as
`Except.error`) when more than one variant remains or when none remains;
otherwise return the single remaining variant (`variants.remove(0)`). -/
def BlockState.active_variant (st : BlockState) (cases : List VariantCase) :
    Except String String :=
  let variants := (cases.filter (fun c => caseApplies st c)).map VariantCase.apply
  if variants.length > 1 then
    .error "only one variant is supported at this time"
  else
    match variants with
    | [] => .error "no variant found for block state"
    | v :: _ => .ok v

/-- Modelled from the spec: `requires_flat_surface`, declared in
`crate::block` but missing from src/ (only its caller in
src/timeline/world_state.rs is present). Spec section 4.4: a table lookup
by block type; redstone wire, torch and repeater require support. -/
def requires_flat_surface (state : BlockState) : Bool :=
  state.block_type = "redstone_wire" || state.block_type = "redstone_torch" ||
    state.block_type = "repeater"

/-- Modelled from the spec: `is_flat_surface` on a block state, declared
in `crate::block` but missing from src/. Spec section 4.4: a table lookup
by block type; iron block and sandstone provide a flat surface. -/
def block_is_flat_surface (state : BlockState) : Bool :=
  state.block_type = "iron_block" || state.block_type = "sandstone"

/-- Embeds `InvalidPlacement` from src/timeline/world_state.rs lines 70-74. -/
inductive InvalidPlacement where
  | OutOfBounds
  | PositionOccupied
  | NotAFlatSurface
deriving DecidableEq, Repr

/-- Embeds `WorldPosition` from src/timeline/world_state.rs lines 77-80. -/
structure WorldPosition where
  pos : IntVec3
  state : BlockState
deriving DecidableEq, Repr

/-- Embeds `WorldState` from src/timeline/world_state.rs lines 8-11. -/
structure WorldState where
  bounds : IntVec3 × IntVec3
  positions : List WorldPosition
deriving DecidableEq, Repr

/-- Embeds `WorldState::new` (src/timeline/world_state.rs lines 14-19). -/
def WorldState.new (bounds : IntVec3 × IntVec3) : WorldState :=
  { bounds := bounds, positions := [] }

/-- Embeds `WorldState::is_in_bounds` (src/timeline/world_state.rs lines
48-56): inclusive comparison against both corners on all three axes. -/
def WorldState.is_in_bounds (w : WorldState) (pos : IntVec3) : Bool :=
  let low := w.bounds.1
  let high := w.bounds.2
  decide (low.x ≤ pos.x) && decide (pos.x ≤ high.x) &&
    decide (low.y ≤ pos.y) && decide (pos.y ≤ high.y) &&
    decide (low.z ≤ pos.z) && decide (pos.z ≤ high.z)

/-- Embeds `WorldState::is_position_occupied` (src/timeline/world_state.rs
lines 58-60). -/
def WorldState.is_position_occupied (w : WorldState) (pos : IntVec3) : Bool :=
  w.positions.any (fun p => p.pos = pos)

/-- Embeds the private method `WorldState::is_flat_surface`
(src/timeline/world_state.rs lines 62-67): find the occupant of `pos`,
test its state with the behavior predicate, and answer false when the
position has no occupant. -/
def WorldState.is_flat_surface (w : WorldState) (pos : IntVec3) : Bool :=
  match w.positions.find? (fun p => p.pos = pos) with
  | some block => block_is_flat_surface block.state
  | none => false

/-- Embeds `WorldState::assert_valid_placement` (src/timeline/world_state.rs
lines 31-46): bounds check, then occupancy check, then support check at
`pos + IntVec3::NEG_Y`, returning the first failure. -/
def WorldState.assert_valid_placement (w : WorldState) (pos : IntVec3)
    (state : BlockState) : Except InvalidPlacement Unit :=
  if !w.is_in_bounds pos then .error .OutOfBounds
  else if w.is_position_occupied pos then .error .PositionOccupied
  else if requires_flat_surface state && !w.is_flat_surface (pos.add IntVec3.NEG_Y) then
    .error .NotAFlatSurface
  else .ok ()

/-- Embeds `WorldState::insert_block` (src/timeline/world_state.rs lines
21-29): validate, and on success push a new `WorldPosition`. The Rust
method mutates `&mut self`; we return the result paired with the new
state. -/
def WorldState.insert_block (w : WorldState) (pos : IntVec3) (state : BlockState) :
    Except InvalidPlacement Unit × WorldState :=
  match w.assert_valid_placement pos state with
  | .error e => (.error e, w)
  | .ok _ => (.ok (), { w with positions := w.positions ++ [⟨pos, state⟩] })

/-- The empty 17×17×17 world of the spec's bounds scenario. -/
def worldEmpty16 : WorldState := WorldState.new (⟨0, 0, 0⟩, ⟨16, 16, 16⟩)

/-- The initial repeater state, a block state requiring a flat surface. -/
def repeaterInitial : BlockState := BlockState.initial_state_for "repeater"

/-- A sandstone state: no schema properties, provides a flat surface. -/
def sandstoneState : BlockState := BlockState.initial_state_for "sandstone"

/-- A redstone-wire state, used by the spec's placement-ordering scenario. -/
def wireInitial : BlockState := BlockState.initial_state_for "redstone_wire"

/-- A world of bounds [(0,0,0),(15,1,15)] holding one sandstone block at
(3,0,3), the setup of the spec's placement-ordering scenario. -/
def worldOccupied : WorldState :=
  ((WorldState.new (⟨0, 0, 0⟩, ⟨15, 1, 15⟩)).insert_block ⟨3, 0, 3⟩ sandstoneState).2

/-- The result component of `insert_block` is exactly the verdict of
`assert_valid_placement`. -/
theorem insert_block_fst (w : WorldState) (pos : IntVec3) (state : BlockState) :
    (w.insert_block pos state).1 = w.assert_valid_placement pos state := by
  unfold WorldState.insert_block
  cases h : w.assert_valid_placement pos state with
  | error e => simp
  | ok u => cases u; simp

/-- The state component of `insert_block`: unchanged on a failed
validation, one `WorldPosition` appended on a successful one. -/
theorem insert_block_snd (w : WorldState) (pos : IntVec3) (state : BlockState) :
    (w.insert_block pos state).2 =
      if w.assert_valid_placement pos state = .ok () then
        { w with positions := w.positions ++ [⟨pos, state⟩] }
      else w := by
  unfold WorldState.insert_block
  cases h : w.assert_valid_placement pos state with
  | error e => simp
  | ok u => cases u; simp

/-- Characterization of a successful placement validation: in bounds, not
occupied, and supported whenever support is required. -/
theorem assert_valid_placement_ok_iff (w : WorldState) (pos : IntVec3) (state : BlockState) :
    w.assert_valid_placement pos state = .ok () ↔
      (w.is_in_bounds pos = true ∧ w.is_position_occupied pos = false ∧
        (requires_flat_surface state = true →
          w.is_flat_surface (pos.add IntVec3.NEG_Y) = true)) := by
  unfold WorldState.assert_valid_placement
  cases h1 : w.is_in_bounds pos <;> cases h2 : w.is_position_occupied pos <;>
    cases h3 : requires_flat_surface state <;>
      cases h4 : w.is_flat_surface (pos.add IntVec3.NEG_Y) <;> simp

/-- Characterization of the `OutOfBounds` verdict. -/
theorem assert_valid_placement_oob_iff (w : WorldState) (pos : IntVec3) (state : BlockState) :
    w.assert_valid_placement pos state = .error .OutOfBounds ↔ w.is_in_bounds pos = false := by
  unfold WorldState.assert_valid_placement
  cases h1 : w.is_in_bounds pos <;> cases h2 : w.is_position_occupied pos <;>
    cases h3 : requires_flat_surface state <;>
      cases h4 : w.is_flat_surface (pos.add IntVec3.NEG_Y) <;> simp

/-- Characterization of the `PositionOccupied` verdict. -/
theorem assert_valid_placement_occupied_iff (w : WorldState) (pos : IntVec3) (state : BlockState) :
    w.assert_valid_placement pos state = .error .PositionOccupied ↔
      (w.is_in_bounds pos = true ∧ w.is_position_occupied pos = true) := by
  unfold WorldState.assert_valid_placement
  cases h1 : w.is_in_bounds pos <;> cases h2 : w.is_position_occupied pos <;>
    cases h3 : requires_flat_surface state <;>
      cases h4 : w.is_flat_surface (pos.add IntVec3.NEG_Y) <;> simp

/-- Characterization of the `NotAFlatSurface` verdict. -/
theorem assert_valid_placement_surface_iff (w : WorldState) (pos : IntVec3) (state : BlockState) :
    w.assert_valid_placement pos state = .error .NotAFlatSurface ↔
      (w.is_in_bounds pos = true ∧ w.is_position_occupied pos = false ∧
        requires_flat_surface state = true ∧
        w.is_flat_surface (pos.add IntVec3.NEG_Y) = false) := by
  unfold WorldState.assert_valid_placement
  cases h1 : w.is_in_bounds pos <;> cases h2 : w.is_position_occupied pos <;>
    cases h3 : requires_flat_surface state <;>
      cases h4 : w.is_flat_surface (pos.add IntVec3.NEG_Y) <;> simp

/-- C1: the claim says the support check examines `pos + (0,-1,0)`, one
step down on the y axis, and never `pos` itself. The source defines
`IntVec3::NEG_Y` as `(0,0,0)`, so the support check examines `pos`
itself: with a sandstone block directly below at `(0,0,0)`, inserting the
initial repeater state at `(0,1,0)` is rejected with `NotAFlatSurface`
even though the position directly below holds a flat surface. -/
theorem neg_y_is_zero_so_support_check_examines_pos_itself :
    IntVec3.NEG_Y = IntVec3.ZERO ∧
    (∀ pos : IntVec3, pos.add IntVec3.NEG_Y = pos) ∧
    (let w1 := (worldEmpty16.insert_block ⟨0, 0, 0⟩ sandstoneState).2
     w1.is_flat_surface ⟨0, 0, 0⟩ = true ∧
       (w1.insert_block ⟨0, 1, 0⟩ repeaterInitial).1 = .error .NotAFlatSurface) := by
  refine ⟨rfl, ?_, by decide, by decide⟩
  intro pos
  cases pos
  simp [IntVec3.add, IntVec3.NEG_Y]

/-- C3: the three validation checks run in the fixed order bounds,
occupancy, support; the first failing check's error is returned; the call
terminates in exactly one of the four outcomes, each characterized below.
In particular an occupied in-bounds position yields `PositionOccupied`,
never `NotAFlatSurface`. -/
theorem insert_block_check_order (w : WorldState) (pos : IntVec3) (state : BlockState) :
    ((w.insert_block pos state).1 = .error .OutOfBounds ↔ w.is_in_bounds pos = false) ∧
    ((w.insert_block pos state).1 = .error .PositionOccupied ↔
      (w.is_in_bounds pos = true ∧ w.is_position_occupied pos = true)) ∧
    ((w.insert_block pos state).1 = .error .NotAFlatSurface ↔
      (w.is_in_bounds pos = true ∧ w.is_position_occupied pos = false ∧
        requires_flat_surface state = true ∧
        w.is_flat_surface (pos.add IntVec3.NEG_Y) = false)) ∧
    ((w.insert_block pos state).1 = .ok () ↔
      (w.is_in_bounds pos = true ∧ w.is_position_occupied pos = false ∧
        (requires_flat_surface state = true →
          w.is_flat_surface (pos.add IntVec3.NEG_Y) = true))) := by
  simp only [insert_block_fst]
  exact ⟨assert_valid_placement_oob_iff w pos state,
    assert_valid_placement_occupied_iff w pos state,
    assert_valid_placement_surface_iff w pos state,
    assert_valid_placement_ok_iff w pos state⟩

/-- Witness for C3 at the spec's placement-ordering scenario: bounds
[(0,0,0),(15,1,15)], sandstone already at (3,0,3); inserting a
redstone-wire state at (3,0,3) returns `PositionOccupied`. -/
theorem insert_block_check_order_witness :
    (worldOccupied.insert_block ⟨3, 0, 3⟩ wireInitial).1 = .error .PositionOccupied :=
  (insert_block_check_order worldOccupied ⟨3, 0, 3⟩ wireInitial).2.1.mpr (by decide)

/-- C4 counterexample: the claim states that with bounds
(0,0,0)–(16,16,16), inserting at (16,0,0) with any state succeeds. With
the initial repeater state — which requires a flat surface — the
insertion into the empty world instead returns `NotAFlatSurface`. -/
theorem boundary_insert_of_repeater_fails :
    (worldEmpty16.insert_block ⟨16, 0, 0⟩ repeaterInitial).1 ≠ .ok () ∧
    (worldEmpty16.insert_block ⟨16, 0, 0⟩ repeaterInitial).1 = .error .NotAFlatSurface := by
  refine ⟨?_, by decide⟩
  intro h
  exact absurd h (by decide)

/-- C4 amended: `insert_block` returns `OutOfBounds` exactly when the
position lies outside the inclusive box on at least one axis; a boundary
position passes the bounds check; with bounds (0,0,0)–(16,16,16),
inserting at (17,0,0) returns `OutOfBounds` for every state, and
inserting at (16,0,0) succeeds for every state that does not require a
flat surface. -/
theorem insert_block_bounds_inclusive :
    (∀ (w : WorldState) (pos : IntVec3) (state : BlockState),
      ((w.insert_block pos state).1 = .error .OutOfBounds ↔
        ¬(w.bounds.1.x ≤ pos.x ∧ pos.x ≤ w.bounds.2.x ∧
          w.bounds.1.y ≤ pos.y ∧ pos.y ≤ w.bounds.2.y ∧
          w.bounds.1.z ≤ pos.z ∧ pos.z ≤ w.bounds.2.z))) ∧
    (∀ state : BlockState,
      (worldEmpty16.insert_block ⟨17, 0, 0⟩ state).1 = .error .OutOfBounds) ∧
    (∀ state : BlockState, requires_flat_surface state = false →
      (worldEmpty16.insert_block ⟨16, 0, 0⟩ state).1 = .ok ()) := by
  have hbounds : ∀ (w : WorldState) (pos : IntVec3),
      w.is_in_bounds pos = true ↔
        (w.bounds.1.x ≤ pos.x ∧ pos.x ≤ w.bounds.2.x ∧
          w.bounds.1.y ≤ pos.y ∧ pos.y ≤ w.bounds.2.y ∧
          w.bounds.1.z ≤ pos.z ∧ pos.z ≤ w.bounds.2.z) := by
    intro w pos
    unfold WorldState.is_in_bounds
    simp [and_assoc]
  refine ⟨?_, ?_, ?_⟩
  · intro w pos state
    rw [insert_block_fst, assert_valid_placement_oob_iff, ← hbounds]
    simp
  · intro state
    rw [insert_block_fst, assert_valid_placement_oob_iff]
    decide
  · intro state hreq
    rw [insert_block_fst, assert_valid_placement_ok_iff]
    refine ⟨by decide, by decide, ?_⟩
    intro hcontr
    rw [hreq] at hcontr
    exact absurd hcontr (by decide)

/-- Witness for C4 amended at the spec's bounds scenario: the initial
repeater state at (17,0,0) is out of bounds, and the sandstone state at
the boundary position (16,0,0) is accepted. -/
theorem insert_block_bounds_inclusive_witness :
    (worldEmpty16.insert_block ⟨17, 0, 0⟩ repeaterInitial).1 = .error .OutOfBounds ∧
    (worldEmpty16.insert_block ⟨16, 0, 0⟩ sandstoneState).1 = .ok () :=
  ⟨insert_block_bounds_inclusive.2.1 repeaterInitial,
    insert_block_bounds_inclusive.2.2 sandstoneState (by decide)⟩

/-- C5: `insert_block` is atomic — on any failure the world (bounds and
position list) is exactly the one before the call, and on success the
result is the old world with exactly one new `WorldPosition` holding the
given position and state appended, and nothing else changed. -/
theorem insert_block_atomic (w : WorldState) (pos : IntVec3) (state : BlockState) :
    (w.insert_block pos state).2 =
      if (w.insert_block pos state).1 = .ok () then
        { w with positions := w.positions ++ [⟨pos, state⟩] }
      else w := by
  rw [insert_block_snd, insert_block_fst]

/-- The world states reachable from `WorldState::new` by any sequence of
`insert_block` calls. -/
inductive ReachableWorldState : WorldState → Prop where
  | base (bounds : IntVec3 × IntVec3) : ReachableWorldState (WorldState.new bounds)
  | step (w : WorldState) (pos : IntVec3) (state : BlockState) :
      ReachableWorldState w → ReachableWorldState (w.insert_block pos state).2

/-- Occupancy uniqueness: no two entries of the position list share a
position. -/
def distinctPositions (w : WorldState) : Prop :=
  w.positions.Pairwise (fun a b => a.pos ≠ b.pos)

/-- An unoccupied position differs from the position of every entry. -/
theorem not_occupied_forall (w : WorldState) (pos : IntVec3)
    (h : w.is_position_occupied pos = false) :
    ∀ p ∈ w.positions, p.pos ≠ pos := by
  intro p hp
  unfold WorldState.is_position_occupied at h
  rw [List.any_eq_false] at h
  have := h p hp
  simpa using this

/-- C6: occupancy uniqueness is an invariant — every world state
reachable from `WorldState::new` by any sequence of `insert_block` calls
has pairwise-distinct positions. -/
theorem reachable_distinct_positions (w : WorldState) (h : ReachableWorldState w) :
    distinctPositions w := by
  induction h with
  | base bounds => simp [WorldState.new, distinctPositions]
  | step w pos state hw ih =>
      rw [insert_block_snd]
      by_cases hok : w.assert_valid_placement pos state = .ok ()
      · rw [if_pos hok]
        have hocc : w.is_position_occupied pos = false :=
          ((assert_valid_placement_ok_iff w pos state).mp hok).2.1
        unfold distinctPositions at ih ⊢
        rw [List.pairwise_append]
        refine ⟨ih, by simp, ?_⟩
        intro a ha b hb
        simp only [List.mem_singleton] at hb
        subst hb
        exact not_occupied_forall w pos hocc a ha
      · rw [if_neg hok]
        exact ih

/-- Witness for C6: a world reached by two insertions (one accepted, one
rejected) has pairwise-distinct positions. -/
theorem reachable_distinct_positions_witness :
    distinctPositions
      (((worldEmpty16.insert_block ⟨0, 0, 0⟩ sandstoneState).2.insert_block ⟨0, 0, 0⟩
        sandstoneState).2) :=
  reachable_distinct_positions _
    (ReachableWorldState.step _ _ _ (ReachableWorldState.step _ _ _
      (ReachableWorldState.base (⟨0, 0, 0⟩, ⟨16, 16, 16⟩))))

/-- C2: `update` succeeds exactly when the property is declared in the
schema for the state's block type and the value is in its allowed-value
list; in every other case it returns an error and the state is unchanged
from before the call — no partial mutation (and the embedding is a total
function, so no panic). -/
theorem update_schema_legal (st : BlockState) (prop : String) (value : StateValue) :
    ((st.update prop value).1 = .ok () ↔
      (∃ allowed, lookupKey (state_values_for st.block_type) prop = some allowed ∧
        allowed.any (fun av => av.eqStateValue value) = true)) ∧
    ((st.update prop value).1 ≠ .ok () →
      ((∃ msg, (st.update prop value).1 = .error msg) ∧ (st.update prop value).2 = st)) := by
  unfold BlockState.update
  cases hl : lookupKey (state_values_for st.block_type) prop with
  | none => simp [hl]
  | some allowed =>
      cases hany : allowed.any (fun av => av.eqStateValue value) with
      | false =>
          simp [hany]
          intro x hx
          have h2 := List.any_eq_false.mp hany x hx
          simpa using h2
      | true =>
          simp [hany]
          simpa using List.any_eq_true.mp hany

/-- Witness for C2: updating the initial repeater state with the
disallowed delay value 9 fails, and the state is unchanged. -/
theorem update_schema_legal_witness :
    (∃ msg, (repeaterInitial.update "delay" (.str "9")).1 = .error msg) ∧
    (repeaterInitial.update "delay" (.str "9")).2 = repeaterInitial :=
  (update_schema_legal repeaterInitial "delay" (.str "9")).2 (by decide)

/-- Replacing the value at a key that is absent from an association list
leaves the list unchanged. -/
theorem map_replace_absent (l : List (String × StateValue)) (prop : String)
    (value : StateValue) (h : lookupKey l prop = none) :
    l.map (fun kv => if kv.1 = prop then (kv.1, value) else kv) = l := by
  induction l with
  | nil => rfl
  | cons kv rest ih =>
      unfold lookupKey at h
      by_cases hk : kv.1 = prop
      · rw [if_pos hk] at h
        exact absurd h (by simp)
      · rw [if_neg hk] at h
        simp only [List.map_cons, if_neg hk]
        rw [ih h]

/-- C9: when the state's values map does not contain the key `prop`, yet
`prop` is declared in the schema and `value` is allowed, `update` returns
success and leaves the state completely unchanged — the key is never
inserted, because the write uses `entry(..).and_modify(..)`. -/
theorem update_absent_key_no_insert (st : BlockState) (prop : String) (value : StateValue)
    (allowed : List StaticStateValue)
    (habsent : lookupKey st.values prop = none)
    (hdecl : lookupKey (state_values_for st.block_type) prop = some allowed)
    (hval : allowed.any (fun av => av.eqStateValue value) = true) :
    st.update prop value = (.ok (), st) := by
  unfold BlockState.update
  rw [hdecl]
  simp only [hval, if_true]
  rw [map_replace_absent st.values prop value habsent]

/-- Witness for C9: a repeater state built from the empty serialized form
has no keys; updating its declared property delay to the allowed value 2
returns success and leaves the state empty. -/
theorem update_absent_key_no_insert_witness :
    BlockState.new "repeater" "" = some { block_type := "repeater", values := [] } ∧
    BlockState.update { block_type := "repeater", values := [] } "delay" (.str "2") =
      (.ok (), { block_type := "repeater", values := [] }) :=
  ⟨by decide,
    update_absent_key_no_insert { block_type := "repeater", values := [] } "delay" (.str "2")
      [.S "1", .S "2", .S "3", .S "4"] (by decide) (by decide) (by decide)⟩

/-- Lookup commutes with mapping the entries of an association list by a
key-preserving function. -/
theorem lookupKey_map {α β : Type} (l : List (String × α)) (g : String → α → β)
    (key : String) :
    lookupKey (l.map (fun kv => (kv.1, g kv.1 kv.2))) key = (lookupKey l key).map (g key) := by
  induction l with
  | nil => rfl
  | cons kv rest ih =>
      unfold lookupKey
      by_cases hk : kv.1 = key
      · subst hk
        simp
      · simp only [List.map_cons, if_neg hk]
        exact ih

/-- C7: `initial_state_for` always succeeds; every property declared in
the schema for the block type is set to the first (index 0) value of its
allowed-value list; the keys are exactly the schema's keys (so a block
type with no schema entry yields the empty state); and the initial
repeater state is the parsed state delay=1, facing=south, locked=false,
powered=false. -/
theorem initial_state_defaults (bt : String) :
    (BlockState.initial_state_for bt).block_type = bt ∧
    (∀ (prop : String) (v0 : StaticStateValue) (rest : List StaticStateValue),
      lookupKey (state_values_for bt) prop = some (v0 :: rest) →
      lookupKey (BlockState.initial_state_for bt).values prop = some v0.toStateValue) ∧
    ((BlockState.initial_state_for bt).values.map Prod.fst =
      (state_values_for bt).map Prod.fst) ∧
    (BlockState.new "repeater" "delay=1,facing=south,locked=false,powered=false" =
      some (BlockState.initial_state_for "repeater")) := by
  refine ⟨rfl, ?_, ?_, by decide⟩
  · intro prop v0 rest hl
    unfold BlockState.initial_state_for
    rw [lookupKey_map (state_values_for bt)
      (fun _ vs => (vs.head?.getD (.B false)).toStateValue) prop]
    rw [hl]
    rfl
  · unfold BlockState.initial_state_for
    simp

/-- Witness for C7: the delay property of the initial repeater state is
the schema's first delay value, the string 1. -/
theorem initial_state_defaults_witness :
    lookupKey (BlockState.initial_state_for "repeater").values "delay" =
      some (StateValue.str "1") :=
  (initial_state_defaults "repeater").2.1 "delay" (.S "1") [.S "2", .S "3", .S "4"] (by decide)

/-- C8: `active_variant` returns a variant exactly when precisely one
case of the rule table applies to the state, and then it is that case's
variant — never a default and never an arbitrary pick; with zero or with
more than one applying case it signals the failure (the embedded form of
the source's panic) instead of returning a variant. -/
theorem active_variant_exactly_one (st : BlockState) (caseList : List VariantCase) :
    (∀ v, st.active_variant caseList = .ok v ↔
      (caseList.filter (fun c => caseApplies st c)).map VariantCase.apply = [v]) ∧
    ((caseList.filter (fun c => caseApplies st c)).length ≠ 1 →
      ∃ msg, st.active_variant caseList = .error msg) := by
  unfold BlockState.active_variant
  cases hf : (caseList.filter (fun c => caseApplies st c)).map VariantCase.apply with
  | nil =>
      constructor
      · intro v
        simp [hf]
      · intro _
        exact ⟨"no variant found for block state", by simp [hf]⟩
  | cons v0 rest =>
      cases rest with
      | nil =>
          constructor
          · intro v
            simp [hf]
          · intro hlen
            have : (caseList.filter (fun c => caseApplies st c)).length = 1 := by
              have hml := congrArg List.length hf
              simpa using hml
            exact absurd this hlen
      | cons v1 rest2 =>
          constructor
          · intro v
            simp [hf]
          · intro _
            exact ⟨"only one variant is supported at this time", by simp [hf]⟩

/-- Witness for C8: with a two-case repeater rule table in which exactly
one case applies, the applying case's variant is returned. -/
theorem active_variant_exactly_one_witness :
    repeaterInitial.active_variant
      [⟨[("delay", .str "1")], "repeater_1tick"⟩, ⟨[("delay", .str "2")], "repeater_2tick"⟩] =
      .ok "repeater_1tick" :=
  (active_variant_exactly_one repeaterInitial
    [⟨[("delay", .str "1")], "repeater_1tick"⟩, ⟨[("delay", .str "2")], "repeater_2tick"⟩]).1
    "repeater_1tick" |>.mpr (by decide)

/-- Splitting never yields an empty list of segments. -/
theorem splitOnChar_ne_nil (sep : Char) (l : List Char) : splitOnChar sep l ≠ [] := by
  induction l with
  | nil => simp [splitOnChar]
  | cons c rest ih =>
      unfold splitOnChar
      by_cases hc : c = sep
      · simp [hc]
      · simp only [if_neg hc]
        cases hg : splitOnChar sep rest with
        | nil => simp
        | cons g gs => simp

/-- A list free of the separator splits into the single segment itself. -/
theorem splitOnChar_of_not_mem (sep : Char) (l : List Char) (h : sep ∉ l) :
    splitOnChar sep l = [l] := by
  induction l with
  | nil => rfl
  | cons c rest ih =>
      have hc : c ≠ sep := fun hh => h (by simp [hh])
      have hrest : sep ∉ rest := fun hh => h (by simp [hh])
      unfold splitOnChar
      rw [if_neg hc, ih hrest]

/-- A list containing the separator splits into at least two segments. -/
theorem splitOnChar_of_mem (sep : Char) (l : List Char) (h : sep ∈ l) :
    ∃ s0 s1 rest, splitOnChar sep l = s0 :: s1 :: rest := by
  induction l with
  | nil => simp at h
  | cons c cs ih =>
      unfold splitOnChar
      by_cases hc : c = sep
      · rw [if_pos hc]
        cases hg : splitOnChar sep cs with
        | nil => exact absurd hg (splitOnChar_ne_nil sep cs)
        | cons g gs => exact ⟨[], g, gs, rfl⟩
      · rw [if_neg hc]
        have hcs : sep ∈ cs := by
          cases List.mem_cons.mp h with
          | inl h1 => exact absurd h1.symm hc
          | inr h2 => exact h2
        obtain ⟨s0, s1, rest, hsplit⟩ := ih hcs
        rw [hsplit]
        exact ⟨c :: s0, s1, rest, rfl⟩

/-- A non-empty segment with no equals sign makes `parseSegment` panic
(`split[1]` is out of bounds). -/
theorem parseSegment_no_eq (seg : List Char) (hne : seg ≠ []) (hno : '=' ∉ seg) :
    parseSegment seg = none := by
  unfold parseSegment
  rw [if_neg hne, splitOnChar_of_not_mem _ _ hno]

/-- A non-empty segment containing an equals sign parses without panic. -/
theorem parseSegment_with_eq (seg : List Char) (hne : seg ≠ []) (hmem : '=' ∈ seg) :
    ∃ kv, parseSegment seg = some (some kv) := by
  unfold parseSegment
  rw [if_neg hne]
  obtain ⟨s0, s1, rest, hsplit⟩ := splitOnChar_of_mem _ _ hmem
  rw [hsplit]
  exact ⟨(String.mk s0, String.mk s1), rfl⟩

/-- One panicking segment makes the whole collection panic. -/
theorem parseCollect_none_of_mem (segs : List (List Char)) (seg : List Char)
    (hmem : seg ∈ segs) (hseg : parseSegment seg = none)
    (acc : List (String × StateValue)) : parseCollect acc segs = none := by
  induction segs generalizing acc with
  | nil => simp at hmem
  | cons s rest ih =>
      unfold parseCollect
      cases List.mem_cons.mp hmem with
      | inl h1 =>
          subst h1
          rw [hseg]
      | inr h2 =>
          cases hs : parseSegment s with
          | none => rfl
          | some o =>
              cases o with
              | none => exact ih h2 acc
              | some kv => exact ih h2 _

/-- When no segment panics, the collection succeeds. -/
theorem parseCollect_some_of_forall (segs : List (List Char))
    (h : ∀ seg ∈ segs, parseSegment seg ≠ none) (acc : List (String × StateValue)) :
    ∃ m, parseCollect acc segs = some m := by
  induction segs generalizing acc with
  | nil => exact ⟨acc, rfl⟩
  | cons s rest ih =>
      unfold parseCollect
      cases hs : parseSegment s with
      | none => exact absurd hs (h s (by simp))
      | some o =>
          cases o with
          | none => exact ih (fun seg hm => h seg (by simp [hm])) acc
          | some kv => exact ih (fun seg hm => h seg (by simp [hm])) _

/-- C10: the empty string parses to the empty state; any input one of
whose non-empty comma-separated segments has no equals-sign character
makes `parse` panic (the embedded `none`, the out-of-bounds `split[1]`);
and an input all of whose segments are empty or contain an equals sign is
handled without panic. -/
theorem parse_panics_on_missing_equals (input : String) :
    BlockState.parse "" = some [] ∧
    (∀ seg, seg ∈ splitOnChar ',' input.toList → seg ≠ [] → '=' ∉ seg →
      BlockState.parse input = none) ∧
    ((∀ seg, seg ∈ splitOnChar ',' input.toList → seg = [] ∨ '=' ∈ seg) →
      ∃ m, BlockState.parse input = some m) := by
  refine ⟨by decide, ?_, ?_⟩
  · intro seg hmem hne hno
    unfold BlockState.parse
    exact parseCollect_none_of_mem _ seg hmem (parseSegment_no_eq seg hne hno) []
  · intro hall
    unfold BlockState.parse
    apply parseCollect_some_of_forall
    intro seg hmem
    cases hall seg hmem with
    | inl h1 =>
        subst h1
        simp [parseSegment]
    | inr h2 =>
        by_cases hne : seg = []
        · subst hne
          simp [parseSegment]
        · obtain ⟨kv, hkv⟩ := parseSegment_with_eq seg hne h2
          simp [hkv]

/-- Witness for C10 at the claim's example input: parsing the serialized
form delay (one segment, no equals sign) panics, so `new` on it panics
as well. -/
theorem parse_panics_on_missing_equals_witness :
    BlockState.parse "delay" = none ∧ BlockState.new "repeater" "delay" = none := by
  have h := (parse_panics_on_missing_equals "delay").2.1 "delay".toList
    (by decide) (by decide) (by decide)
  refine ⟨h, ?_⟩
  unfold BlockState.new
  rw [h]
